import Mathlib

/-!
Shallow embedding of the scope-graph and knowledge engine of project-kaizen.

The Python sources keep their state in a PostgreSQL database; here the
relevant tables (`namespaces`, `scopes`, `scope_parents`, `knowledge`,
`knowledge_conflicts`) are embedded as lists of rows inside a `DB` value,
and every embedded operation is a function `DB → args → DB × Except Err out`.
Each SQL statement executed by the Python code runs in autocommit mode
(no surrounding `conn.transaction()` in the mcp-server code paths), so a
Python function that raises midway leaves the statements it already ran
committed; the embedding mirrors that by threading the partially mutated
`DB` into the error result.  Operations of the `server` variant that do run
inside `conn.transaction()` return the original `DB` on error.

Canonical scope names `"namespace:scope"` are embedded as a pair `Ref`:
every code path splits the string at the first colon before using it, and
the caller-facing validators reject names whose parts contain a colon, so
the pair form is faithful for all inputs that reach the embedded logic.
-/

namespace Kaizen

/-- A canonical scope reference, the two parts of `"<namespace>:<scope>"`
already split at the first colon (as every Python call site does with
`scope.split(":", 1)`). -/
structure Ref where
  ns : String
  name : String
  deriving DecidableEq

/-- Row of the `namespaces` table. -/
structure NamespaceRow where
  id : Nat
  name : String
  description : String
  deriving DecidableEq

/-- Row of the `scopes` table. -/
structure ScopeRow where
  id : Nat
  namespaceId : Nat
  name : String
  description : String
  updatedAt : Nat
  deriving DecidableEq

/-- Row of the `scope_parents` table: a parent edge of the scope graph. -/
structure Edge where
  child : Nat
  parent : Nat
  deriving DecidableEq

/-- Row of the `knowledge` table.  `updatedAt` is the logical time of the
last `updated_at = NOW()` write. -/
structure KnowledgeRow where
  id : Nat
  scopeId : Nat
  content : String
  context : String
  updatedAt : Nat
  deriving DecidableEq

/-- The database state.  `conflicts` is the `knowledge_conflicts` table of
the `server` variant; `nextScopeId` is the scope id sequence; `clock` is a
logical clock standing in for `NOW()`. -/
structure DB where
  namespaces : List NamespaceRow
  scopes : List ScopeRow
  scopeParents : List Edge
  knowledge : List KnowledgeRow
  conflicts : List (Nat × List Nat)
  nextScopeId : Nat
  clock : Nat
  deriving DecidableEq

/-- Errors raised by the embedded operations (Python `ValueError`s,
distinguished by their message). -/
inductive Err where
  | namespaceNotFound (ns : String)
  | scopeNotFound (r : Ref)
  | scopeAlreadyExists (r : Ref)
  | parentNotFound (r : Ref)
  | targetScopeNotFound (r : Ref)
  | circularReference (child parent : Nat)
  | duplicateEdge (child parent : Nat)
  | crossNamespaceMove
  | defaultScopeProtected
  | cannotDeleteGlobalNamespace
  | knowledgeNotFound (id : Nat)
  | activeNotFound (id : Nat)
  | suppressedNotFound (id : Nat)
  | knowledgeEntriesNotFound (ids : List Nat)
  deriving DecidableEq

instance {ε α : Type} [DecidableEq ε] [DecidableEq α] : DecidableEq (Except ε α) :=
  fun a b =>
    match a, b with
    | .error e, .error f =>
      if h : e = f then isTrue (by rw [h]) else
        isFalse (fun hh => h (Except.error.inj hh))
    | .error e, .ok y => isFalse (fun hh => Except.noConfusion hh)
    | .ok x, .error f => isFalse (fun hh => Except.noConfusion hh)
    | .ok x, .ok y =>
      if h : x = y then isTrue (by rw [h]) else
        isFalse (fun hh => h (Except.ok.inj hh))

/-- Python truthiness of an optional string argument: `if content:` is
false both for `None` and for the empty string. -/
def optTruthy : Option String → Bool
  | none => false
  | some s => !(s == "")

/-- `s LIKE '%pat%'`: `pat` occurs as a contiguous substring of `s`. -/
def containsSeq (s pat : String) : Bool := decide (pat.data <:+: s.data)

/-- Insert into a list sorted by `le` (used to embed SQL `ORDER BY`). -/
def insertSorted (le : α → α → Bool) (a : α) : List α → List α
  | [] => [a]
  | b :: bs => if le a b then a :: b :: bs else b :: insertSorted le a bs

/-- Insertion sort by `le`, the embedding of SQL `ORDER BY`. -/
def sortBy (le : α → α → Bool) : List α → List α
  | [] => []
  | a :: as => insertSorted le a (sortBy le as)

/-- `SELECT id FROM namespaces WHERE name = $1` (`fetchrow`: first match). -/
def findNamespace (db : DB) (ns : String) : Option NamespaceRow :=
  db.namespaces.find? (fun n => n.name == ns)

/-- Whether scope row `s` belongs to the namespace named `ns`
(the `JOIN namespaces n ON s.namespace_id = n.id WHERE n.name = $1` part). -/
def scopeInNs (db : DB) (s : ScopeRow) (ns : String) : Bool :=
  db.namespaces.any (fun n => n.id == s.namespaceId && n.name == ns)

/-- `SELECT s.id FROM scopes s JOIN namespaces n ON s.namespace_id = n.id
WHERE n.name = $1 AND s.name = $2` (`fetchrow`: first match). -/
def findScope (db : DB) (r : Ref) : Option ScopeRow :=
  db.scopes.find? (fun s => s.name == r.name && scopeInNs db s r.ns)

/-- Name of the namespace with id `nid`, when it exists. -/
def nsNameOfId (db : DB) (nid : Nat) : Option String :=
  (db.namespaces.find? (fun n => n.id == nid)).map (·.name)

/-- The canonical reference of the scope with id `sid`
(the `n.name || ':' || s.name` join used throughout the queries). -/
def scopeRefOfId (db : DB) (sid : Nat) : Option Ref :=
  match db.scopes.find? (fun s => s.id == sid) with
  | none => none
  | some s => (nsNameOfId db s.namespaceId).map (fun ns => ⟨ns, s.name⟩)

/-- `namespace:scope` label of a reference. -/
def canonical (r : Ref) : String := r.ns ++ ":" ++ r.name

/-- Parents of `child` in the edge set
(`SELECT parent_scope_id FROM scope_parents WHERE child_scope_id = $1`). -/
def parentIdsOf (edges : List Edge) (child : Nat) : List Nat :=
  (edges.filter (fun e => e.child == child)).map (·.parent)

/-- One step of the reachability walk: add the parents of everything seen. -/
def reachStep (edges : List Edge) (seen : List Nat) : List Nat :=
  (seen ++ seen.flatMap (parentIdsOf edges)).dedup

/-- Iterate `reachStep` a bounded number of times.  The seen set only grows
and is bounded by the node set, so `edges.length + 1` iterations reach the
fixed point on every state the operations produce. -/
def reachIter (edges : List Edge) : Nat → List Nat → List Nat
  | 0, seen => seen
  | n + 1, seen => reachIter edges n (reachStep edges seen)

/-- The transitive parent closure of `start` (the scopes reachable from
`start` through one or more parent edges). -/
def ancestorIds (edges : List Edge) (start : Nat) : List Nat :=
  reachIter edges (edges.length + 1) ((parentIdsOf edges start).dedup)

/-- Modelled from the spec: the repository's SQL migrations (loaded by
`database/scripts/migrate.py` from `database/sql/migrations`, a directory
absent from the sources) install the database-side guard that rejects a
`scope_parents` insert closing a cycle; the Python `update_scope` has no
cycle check of its own yet its test expects `CircularReference`.  Spec
section 4.2: perform a reachability search from each newly-added parent P,
walk P's transitive parent closure, and if the child S appears in that
closure the edge S→P would close a cycle and is rejected; self-reference is
likewise rejected.  Each `INSERT` statement is checked against the edge set
as it stands at that statement. -/
def wouldCloseCycle (edges : List Edge) (child parent : Nat) : Bool :=
  child == parent || (ancestorIds edges parent).contains child

/-- `INSERT INTO scope_parents (child_scope_id, parent_scope_id) VALUES ($1, $2)`
without `ON CONFLICT` (the `update_scope` path): the cycle guard
(`wouldCloseCycle`) rejects first, then the primary key rejects a duplicate
edge; on error the single statement is rolled back. -/
def insertEdgeStrict (db : DB) (child parent : Nat) : DB × Except Err Unit :=
  if wouldCloseCycle db.scopeParents child parent then
    (db, .error (.circularReference child parent))
  else if db.scopeParents.contains ⟨child, parent⟩ then
    (db, .error (.duplicateEdge child parent))
  else
    ({ db with scopeParents := db.scopeParents ++ [⟨child, parent⟩] }, .ok ())

/-- Same insert with `ON CONFLICT (child_scope_id, parent_scope_id) DO NOTHING`
(the `create_scope` path): a duplicate edge is a no-op instead of an error. -/
def insertEdgeLax (db : DB) (child parent : Nat) : DB × Except Err Unit :=
  if wouldCloseCycle db.scopeParents child parent then
    (db, .error (.circularReference child parent))
  else if db.scopeParents.contains ⟨child, parent⟩ then
    (db, .ok ())
  else
    ({ db with scopeParents := db.scopeParents ++ [⟨child, parent⟩] }, .ok ())

/-- The parent loop of `create_scope`: resolve each canonical parent name,
fail `ParentNotFound` on the first unresolved one, insert the edge
otherwise.  Statements already executed stay committed on failure. -/
def insertParentsLax (db : DB) (child : Nat) : List Ref → DB × Except Err Unit
  | [] => (db, .ok ())
  | r :: rest =>
    match findScope db r with
    | none => (db, .error (.parentNotFound r))
    | some p =>
      match insertEdgeLax db child p.id with
      | (db1, .error e) => (db1, .error e)
      | (db1, .ok _) => insertParentsLax db1 child rest

/-- The parent loop of `update_scope` (inserts without `ON CONFLICT`). -/
def insertParentsStrict (db : DB) (child : Nat) : List Ref → DB × Except Err Unit
  | [] => (db, .ok ())
  | r :: rest =>
    match findScope db r with
    | none => (db, .error (.parentNotFound r))
    | some p =>
      match insertEdgeStrict db child p.id with
      | (db1, .error e) => (db1, .error e)
      | (db1, .ok _) => insertParentsStrict db1 child rest

/-- `all_parents = list(parents); if default_parent not in all_parents:
all_parents.append(default_parent)`. -/
def withDefaultParent (ns : String) (parents : List Ref) : List Ref :=
  if parents.contains ⟨ns, "default"⟩ then parents else parents ++ [⟨ns, "default"⟩]

/-- Modelled from the spec: the unique index on `scopes (namespace_id, name)`
lives in the absent SQL migrations; the spec states that scope names are
unique per namespace (`AlreadyExists` on collision). -/
def scopeNameTaken (db : DB) (nsid : Nat) (name : String) : Bool :=
  db.scopes.any (fun s => s.namespaceId == nsid && s.name == name)

/-- The result record returned by `create_scope` / `update_scope`. -/
structure ScopeSummary where
  scope : Ref
  description : String
  parents : List Ref
  deriving DecidableEq

/-- `create_scope` of `core/scope_ops.py` (identical logic in
`tools/scope.py` and `services/scope.py`): resolve the namespace, insert the
scope row, append the namespace default to the parents when absent, then
resolve and insert each parent edge. -/
def createScope (db : DB) (ns scopeName description : String) (parents : List Ref) :
    DB × Except Err ScopeSummary :=
  match findNamespace db ns with
  | none => (db, .error (.namespaceNotFound ns))
  | some nrow =>
    if scopeNameTaken db nrow.id scopeName then
      (db, .error (.scopeAlreadyExists ⟨ns, scopeName⟩))
    else
      let sid := db.nextScopeId
      let db1 := { db with
        scopes := db.scopes ++ [⟨sid, nrow.id, scopeName, description, db.clock⟩],
        nextScopeId := sid + 1, clock := db.clock + 1 }
      let allParents := withDefaultParent ns parents
      match insertParentsLax db1 sid allParents with
      | (db2, .error e) => (db2, .error e)
      | (db2, .ok _) => (db2, .ok ⟨⟨ns, scopeName⟩, description, allParents⟩)

/-- The `else` branch of `update_scope` when no parent list is supplied:
read the current parents, ordered by canonical label (`ORDER BY parent_scope`). -/
def currentParentRefs (db : DB) (child : Nat) : List Ref :=
  sortBy (fun a b => decide (canonical a ≤ canonical b))
    ((parentIdsOf db.scopeParents child).filterMap (scopeRefOfId db))

/-- `update_scope` of `core/scope_ops.py` (identical logic in
`tools/scope.py` and `services/scope.py`).  The statements run in autocommit
mode: when the parent loop fails, the `DELETE FROM scope_parents` and the
edge inserts already executed remain committed. -/
def updateScope (db : DB) (scope : Ref) (newScope : Option Ref)
    (description : Option String) (parents : Option (List Ref)) :
    DB × Except Err ScopeSummary :=
  match findScope db scope with
  | none => (db, .error (.scopeNotFound scope))
  | some srow =>
    let renameRes : DB × Except Err Ref :=
      match newScope with
      | none => (db, .ok scope)
      | some nr =>
        if nr.ns == scope.ns then
          ({ db with
              scopes := db.scopes.map (fun s =>
                if s.id == srow.id then { s with name := nr.name, updatedAt := db.clock }
                else s),
              clock := db.clock + 1 }, .ok nr)
        else (db, .error .crossNamespaceMove)
    match renameRes with
    | (db1, .error e) => (db1, .error e)
    | (db1, .ok finalRef) =>
      let db2 :=
        if optTruthy description then
          { db1 with
            scopes := db1.scopes.map (fun s =>
              if s.id == srow.id then
                { s with description := description.getD "", updatedAt := db1.clock }
              else s),
            clock := db1.clock + 1 }
        else db1
      let finalDescription :=
        if optTruthy description then description.getD "" else srow.description
      match parents with
      | some ps =>
        let db3 :=
          { db2 with scopeParents := db2.scopeParents.filter (fun e => !(e.child == srow.id)) }
        let newParents := withDefaultParent scope.ns ps
        match insertParentsStrict db3 srow.id newParents with
        | (db4, .error e) => (db4, .error e)
        | (db4, .ok _) => (db4, .ok ⟨finalRef, finalDescription, newParents⟩)
      | none =>
        (db2, .ok ⟨finalRef, finalDescription, currentParentRefs db2 srow.id⟩)

/-- The result record returned by `delete_scope`. -/
structure DeleteScopeResult where
  scope : Ref
  knowledgeDeleted : Nat
  deriving DecidableEq

/-- `delete_scope` of `core/scope_ops.py` / `tools/scope.py`: count the
bound knowledge rows, then delete the scope; the delete cascades to
`scope_parents` and `knowledge` through the foreign keys (as the code's own
comment records). -/
def deleteScopeCore (db : DB) (scope : Ref) : DB × Except Err DeleteScopeResult :=
  match findScope db scope with
  | none => (db, .error (.scopeNotFound scope))
  | some srow =>
    let cnt := (db.knowledge.filter (fun k => k.scopeId == srow.id)).length
    let db1 := { db with
      scopes := db.scopes.filter (fun s => !(s.id == srow.id)),
      scopeParents :=
        db.scopeParents.filter (fun e => !(e.child == srow.id) && !(e.parent == srow.id)),
      knowledge := db.knowledge.filter (fun k => !(k.scopeId == srow.id)) }
    (db1, .ok ⟨scope, cnt⟩)

/-- The `delete_scope` MCP tool: `DeleteScopeInput`'s validator rejects any
canonical name ending in `":default"` before the database logic runs.  For
format-valid names (no colon inside the scope part) that condition is
exactly `scope.name = "default"`.  The `server` variant's `delete_scope`
applies the same guard (`if scope_name == "default"`). -/
def deleteScopeTool (db : DB) (scope : Ref) : DB × Except Err DeleteScopeResult :=
  if scope.name == "default" then (db, .error .defaultScopeProtected)
  else deleteScopeCore db scope

/-- The result record returned by namespace deletion. -/
structure DeleteNamespaceResult where
  name : String
  scopesCount : Nat
  knowledgeCount : Nat
  deriving DecidableEq

/-- Ids of the scopes owned by namespace `nid`. -/
def namespaceScopeIds (db : DB) (nid : Nat) : List Nat :=
  (db.scopes.filter (fun s => s.namespaceId == nid)).map (·.id)

/-- `NamespaceRepository.delete` (`repositories/namespace.py`): one CTE that
counts the owned scopes and their knowledge rows and deletes the namespace;
the delete cascades to scopes, parent edges and knowledge. -/
def deleteNamespaceRepo (db : DB) (name : String) : DB × Except Err DeleteNamespaceResult :=
  match findNamespace db name with
  | none => (db, .error (.namespaceNotFound name))
  | some nrow =>
    let sids := namespaceScopeIds db nrow.id
    let kcount := (db.knowledge.filter (fun k => sids.contains k.scopeId)).length
    let db1 := { db with
      namespaces := db.namespaces.filter (fun n => !(n.id == nrow.id)),
      scopes := db.scopes.filter (fun s => !(s.namespaceId == nrow.id)),
      scopeParents :=
        db.scopeParents.filter (fun e => !(sids.contains e.child) && !(sids.contains e.parent)),
      knowledge := db.knowledge.filter (fun k => !(sids.contains k.scopeId)) }
    (db1, .ok ⟨name, sids.length, kcount⟩)

/-- `NamespaceService.delete_namespace` (`services/namespace.py`): the
reserved `global` namespace is rejected before the repository runs. -/
def deleteNamespaceService (db : DB) (name : String) : DB × Except Err DeleteNamespaceResult :=
  if name == "global" then (db, .error .cannotDeleteGlobalNamespace)
  else deleteNamespaceRepo db name

/-- `update_knowledge_entry` of `core/knowledge_ops.py` (same logic in
`tools/knowledge.py` and `services/knowledge.py` + `repositories/knowledge.py`):
fetch the entry joined with its scope, optionally resolve a new scope, then
one dynamic `UPDATE` that sets only the fields whose argument is truthy
(non-`None` and non-empty) plus `updated_at = NOW()`. -/
def updateKnowledgeEntry (db : DB) (entryId : Nat)
    (content context : Option String) (scope : Option Ref) : DB × Except Err Ref :=
  match db.knowledge.find? (fun k => k.id == entryId) with
  | none => (db, .error (.knowledgeNotFound entryId))
  | some krow =>
    match scopeRefOfId db krow.scopeId with
    | none => (db, .error (.knowledgeNotFound entryId))
    | some _ =>
      let scopeRes : Except Err Nat :=
        match scope with
        | none => .ok krow.scopeId
        | some r =>
          match findScope db r with
          | none => .error (.targetScopeNotFound r)
          | some s => .ok s.id
      match scopeRes with
      | .error e => (db, .error e)
      | .ok finalScopeId =>
        let db1 := { db with
          knowledge := db.knowledge.map (fun k =>
            if k.id == entryId then
              { k with
                content := if optTruthy content then content.getD "" else k.content,
                context := if optTruthy context then context.getD "" else k.context,
                scopeId := if scope.isSome then finalScopeId else k.scopeId,
                updatedAt := db.clock }
            else k),
          clock := db.clock + 1 }
        let finalScope :=
          match scope with
          | some r => r
          | none => (scopeRefOfId db krow.scopeId).getD ⟨"", ""⟩
        (db1, .ok finalScope)

/-- The marker prefix the search filter looks for:
`NOT k.context LIKE '%[SUPPRESSED-%'`. -/
def suppressionMarker : String := "[SUPPRESSED-"

/-- Whether a knowledge entry's context carries a suppression marker. -/
def hasMarker (context : String) : Bool := containsSeq context suppressionMarker

/-- The tag appended to a suppressed entry's context:
`context || ' [SUPPRESSED-BY-' || active_id || ']'`. -/
def suppressionTag (activeId : Nat) : String :=
  " [SUPPRESSED-BY-" ++ toString activeId ++ "]"

/-- `SELECT id FROM knowledge WHERE id = $1` turned into a presence check. -/
def knowledgeExists (db : DB) (i : Nat) : Bool :=
  db.knowledge.any (fun k => k.id == i)

/-- One `UPDATE knowledge SET context = context || ' [SUPPRESSED-BY-' || $1
|| ']', updated_at = NOW() WHERE id = $2` statement. -/
def markSuppressed (db : DB) (activeId suppressedId : Nat) : DB :=
  { db with
    knowledge := db.knowledge.map (fun k =>
      if k.id == suppressedId then
        { k with context := k.context ++ suppressionTag activeId, updatedAt := db.clock }
      else k),
    clock := db.clock + 1 }

/-- The suppression loop of `resolve_knowledge_conflicts`. -/
def suppressAll (db : DB) (activeId : Nat) : List Nat → DB
  | [] => db
  | i :: rest => suppressAll (markSuppressed db activeId i) activeId rest

/-- `resolve_knowledge_conflicts` of `core/knowledge_ops.py` (same logic in
`tools/knowledge.py` and `services/knowledge.py`): check the active id, then
each suppressed id in order, raising on the first missing one; only then
append the suppression tag to every suppressed entry's context. -/
def resolveKnowledgeConflicts (db : DB) (activeId : Nat) (suppressedIds : List Nat) :
    DB × Except Err (Nat × List Nat) :=
  if !(knowledgeExists db activeId) then
    (db, .error (.activeNotFound activeId))
  else
    match suppressedIds.find? (fun i => !(knowledgeExists db i)) with
    | some missing => (db, .error (.suppressedNotFound missing))
    | none => (suppressAll db activeId suppressedIds, .ok (activeId, suppressedIds))

/-- `resolve_knowledge_conflict` of the `server` variant
(`server/src/project_kaizen/database.py`): inside one transaction, fetch the
rows whose id is among `active :: suppressed`, compare counts, raise one
error listing the set of missing ids, otherwise insert a
`knowledge_conflicts` row. -/
def resolveKnowledgeConflictServer (db : DB) (activeId : Nat) (suppressedIds : List Nat) :
    DB × Except Err (Nat × List Nat) :=
  let allIds := activeId :: suppressedIds
  let existingIds := (db.knowledge.filter (fun k => allIds.contains k.id)).map (·.id)
  if !(existingIds.length == allIds.length) then
    (db, .error (.knowledgeEntriesNotFound
      ((allIds.filter (fun i => !(existingIds.contains i))).dedup)))
  else
    ({ db with conflicts := db.conflicts ++ [(activeId, suppressedIds)] },
     .ok (activeId, suppressedIds))

/-- The `(scope id, level)` rows of the recursive CTE `scope_ancestors`:
level `lvl` holds the current frontier, level `lvl + 1` the parents of the
frontier scopes.  Each produced frontier is deduplicated, matching the
final `SELECT DISTINCT` over `(id, level)` rows (two equal rows of one
level collapse; the same scope at two different levels stays twice). -/
def closureRowsAux (edges : List Edge) : Nat → Nat → List Nat → List (Nat × Nat)
  | 0, lvl, frontier => frontier.map (fun s => (s, lvl))
  | n + 1, lvl, frontier =>
      frontier.map (fun s => (s, lvl)) ++
        closureRowsAux edges n (lvl + 1) ((frontier.flatMap (parentIdsOf edges)).dedup)

/-- The rows of the hierarchy query, ordered by level (`ORDER BY level ASC`).
The CTE recurses until no new row appears; on the acyclic states the
operations maintain, every parent path has fewer than `db.scopes.length`
edges, so that fuel reproduces the full result. -/
def closureRows (edges : List Edge) (fuel start : Nat) : List (Nat × Nat) :=
  closureRowsAux edges fuel 0 [start]

/-- The scope-hierarchy part of `get_task_context` (`core/knowledge_ops.py`):
the recursive CTE from the start scope, failing when the start scope does
not exist (empty base case). -/
def ancestorClosure (db : DB) (scope : Ref) : Except Err (List (Nat × Nat)) :=
  match findScope db scope with
  | none => .error (.scopeNotFound scope)
  | some srow => .ok (closureRows db.scopeParents db.scopes.length srow.id)

/-- A row of the knowledge search result set
(`SELECT k.id, k.content, n.name || ':' || s.name, ts_rank_cd(...)`). -/
structure SearchRow where
  kid : Nat
  content : String
  scopeLabel : String
  rank : Nat
  updatedAt : Nat
  deriving DecidableEq

/-- The document the full-text functions see: `k.content || ' ' || k.context`. -/
def searchDoc (k : KnowledgeRow) : String := k.content ++ " " ++ k.context

/-- The knowledge search query of `get_task_context`, with the PostgreSQL
full-text primitives (`plainto_tsquery` matching and `ts_rank_cd` scoring)
as black-box parameters: restrict to the scope set, to matching documents,
to contexts without a suppression marker and (when a task size is given) to
contexts containing it, join the scope label, order by rank then recency,
truncate to `LIMIT 50`. -/
def searchRows (tsMatch : String → String → Bool) (tsRank : String → String → Nat)
    (db : DB) (queries : List String) (scopeIds : List Nat) (taskSize : Option String) :
    List SearchRow :=
  let searchTerms := " | ".intercalate queries
  let rows := db.knowledge.filterMap (fun k =>
    if scopeIds.contains k.scopeId
        && tsMatch (searchDoc k) searchTerms
        && !(hasMarker k.context)
        && (match taskSize with
            | none => true
            | some ts => containsSeq k.context ts) then
      (scopeRefOfId db k.scopeId).map (fun r =>
        ⟨k.id, k.content, canonical r, tsRank (searchDoc k) searchTerms, k.updatedAt⟩)
    else none)
  (sortBy (fun a b =>
      decide (b.rank < a.rank) || (b.rank == a.rank && decide (b.updatedAt ≤ a.updatedAt)))
    rows).take 50

/-- `results[scope][id] = content` on an insertion-ordered association list
standing in for the Python dict. -/
def setEntry : List (Nat × String) → Nat → String → List (Nat × String)
  | [], k, v => [(k, v)]
  | (k0, v0) :: rest, k, v =>
    if k0 == k then (k0, v) :: rest else (k0, v0) :: setEntry rest k v

/-- `if scope_name not in results: results[scope_name] = {}` followed by the
entry write, on the outer dict. -/
def setGroup : List (String × List (Nat × String)) → String → Nat → String →
    List (String × List (Nat × String))
  | [], lab, k, v => [(lab, [(k, v)])]
  | (l0, es) :: rest, lab, k, v =>
    if l0 == lab then (l0, setEntry es k v) :: rest else (l0, es) :: setGroup rest lab k v

/-- The result-organizing loop of `get_task_context`: group the rows by
their scope label. -/
def groupRows (rows : List SearchRow) : List (String × List (Nat × String)) :=
  rows.foldl (fun acc r => setGroup acc r.scopeLabel r.kid r.content) []

/-- `get_task_context` of `core/knowledge_ops.py` / `tools/knowledge.py`:
resolve the ancestor closure of the start scope, search over its scope ids,
group the rows by scope label. -/
def getTaskContext (tsMatch : String → String → Bool) (tsRank : String → String → Nat)
    (db : DB) (queries : List String) (scope : Ref) (taskSize : Option String) :
    Except Err (List (String × List (Nat × String))) :=
  match ancestorClosure db scope with
  | .error e => .error e
  | .ok rows =>
    .ok (groupRows (searchRows tsMatch tsRank db queries (rows.map (·.1)) taskSize))

/-! ## Concrete states used by the counterexamples and witnesses -/

/-- A namespace `ns` with the chain `ns:default ← ns:a ← ns:b`
(`b` has parents `a` and `default`, `a` has parent `default`),
as produced by creating the namespace and then `a` and `b`. -/
def chainDB : DB :=
  { namespaces := [⟨1, "ns", "d"⟩],
    scopes := [⟨1, 1, "default", "d", 0⟩, ⟨2, 1, "a", "d", 0⟩, ⟨3, 1, "b", "d", 0⟩],
    scopeParents := [⟨2, 1⟩, ⟨3, 2⟩, ⟨3, 1⟩],
    knowledge := [], conflicts := [], nextScopeId := 4, clock := 1 }

/-- Scopes `a`, `b`, `dd` where `dd` has parents `a`, `b` and `default`,
`b` has parents `a` and `default`, `a` has parent `default`: `a` is
reachable from `dd` by paths of lengths 1 and 2. -/
def unequalPathsDB : DB :=
  { namespaces := [⟨1, "ns", "d"⟩],
    scopes := [⟨1, 1, "default", "d", 0⟩, ⟨2, 1, "a", "d", 0⟩, ⟨3, 1, "b", "d", 0⟩,
               ⟨4, 1, "dd", "d", 0⟩],
    scopeParents := [⟨2, 1⟩, ⟨3, 2⟩, ⟨3, 1⟩, ⟨4, 2⟩, ⟨4, 3⟩, ⟨4, 1⟩],
    knowledge := [], conflicts := [], nextScopeId := 5, clock := 1 }

/-- The diamond of the spec: `b` and `c` are both children of `a`, and `dd`
is a child of both `b` and `c` (plus the mandatory default edges). -/
def diamondDB : DB :=
  { namespaces := [⟨1, "ns", "d"⟩],
    scopes := [⟨1, 1, "default", "d", 0⟩, ⟨2, 1, "a", "d", 0⟩, ⟨3, 1, "b", "d", 0⟩,
               ⟨4, 1, "c", "d", 0⟩, ⟨5, 1, "dd", "d", 0⟩],
    scopeParents := [⟨2, 1⟩, ⟨3, 2⟩, ⟨3, 1⟩, ⟨4, 2⟩, ⟨4, 1⟩, ⟨5, 3⟩, ⟨5, 4⟩, ⟨5, 1⟩],
    knowledge := [], conflicts := [], nextScopeId := 6, clock := 1 }

/-- Two knowledge entries with ids 1 and 2. -/
def pairKnowledgeDB : DB :=
  { namespaces := [], scopes := [], scopeParents := [],
    knowledge := [⟨1, 1, "c1", "k1", 0⟩, ⟨2, 1, "c2", "k2", 0⟩],
    conflicts := [], nextScopeId := 1, clock := 1 }

/-- A single knowledge entry with id 1. -/
def singleKnowledgeDB : DB :=
  { namespaces := [], scopes := [], scopeParents := [],
    knowledge := [⟨1, 1, "c", "k", 0⟩],
    conflicts := [], nextScopeId := 1, clock := 1 }

/-- A namespace `proj` holding only its default scope. -/
def projDB : DB :=
  { namespaces := [⟨1, "proj", "d"⟩],
    scopes := [⟨1, 1, "default", "d", 0⟩],
    scopeParents := [], knowledge := [], conflicts := [], nextScopeId := 2, clock := 1 }

/-- The state after `Create(scope "proj:child", parents [])` on `projDB`. -/
def projChildDB : DB :=
  { namespaces := [⟨1, "proj", "d"⟩],
    scopes := [⟨1, 1, "default", "d", 0⟩, ⟨2, 1, "child", "d", 1⟩],
    scopeParents := [⟨2, 1⟩], knowledge := [], conflicts := [],
    nextScopeId := 3, clock := 2 }

/-- A namespace with scopes `default` and `s`; two knowledge entries bound
to `s`, one to `default`. -/
def deleteDemoDB : DB :=
  { namespaces := [⟨1, "ns", "d"⟩],
    scopes := [⟨1, 1, "default", "d", 0⟩, ⟨2, 1, "s", "d", 0⟩],
    scopeParents := [⟨2, 1⟩],
    knowledge := [⟨1, 2, "c1", "k1", 0⟩, ⟨2, 2, "c2", "k2", 0⟩, ⟨3, 1, "c3", "k3", 0⟩],
    conflicts := [], nextScopeId := 3, clock := 1 }

/-- Ids of the knowledge entries whose context carries a suppression marker
(exactly the entries the search filter excludes). -/
def markedIds (db : DB) : List Nat :=
  (db.knowledge.filter (fun k => hasMarker k.context)).map (·.id)

/-- The state after `Resolve(1, [2])` on `pairKnowledgeDB`. -/
def pairKnowledgeDB1 : DB :=
  { namespaces := [], scopes := [], scopeParents := [],
    knowledge := [⟨1, 1, "c1", "k1", 0⟩, ⟨2, 1, "c2", "k2 [SUPPRESSED-BY-1]", 1⟩],
    conflicts := [], nextScopeId := 1, clock := 2 }

/-- A namespace with one scope and one unsuppressed knowledge entry. -/
def searchDemoDB : DB :=
  { namespaces := [⟨1, "ns", "d"⟩],
    scopes := [⟨1, 1, "default", "d", 0⟩],
    scopeParents := [],
    knowledge := [⟨1, 1, "content-one", "keys", 0⟩],
    conflicts := [], nextScopeId := 2, clock := 1 }

/-! ## Claim theorems -/

/-- C1: the claim states that a scope update whose proposed parent set
would let the scope reach itself fails with `CircularReference` AND leaves
the parent-edge set exactly as it was.  On `chainDB`, updating `ns:a` to
parent list `[ns:b]` does fail `CircularReference` (edge `a→b` closes the
cycle `a→b→a`), but the code first commits `DELETE FROM scope_parents WHERE
child_scope_id = a` outside any transaction, so the failed call strips
`a`'s former edge to `ns:default`: the edge set is NOT left as it was. -/
theorem update_scope_cycle_failure_mutates_edges :
    (updateScope chainDB ⟨"ns", "a"⟩ none none (some [⟨"ns", "b"⟩])).2 =
      .error (.circularReference 2 3) ∧
    chainDB.scopeParents = [⟨2, 1⟩, ⟨3, 2⟩, ⟨3, 1⟩] ∧
    (updateScope chainDB ⟨"ns", "a"⟩ none none (some [⟨"ns", "b"⟩])).1.scopeParents =
      [⟨3, 2⟩, ⟨3, 1⟩] ∧
    (updateScope chainDB ⟨"ns", "a"⟩ none none (some [⟨"ns", "b"⟩])).1.scopeParents ≠
      chainDB.scopeParents := by
  refine ⟨by decide, by decide, by decide, by decide⟩

/-- C9: the claim states that a parent replacement failing `ParentNotFound`
leaves the scope's parent-edge set unchanged.  On `chainDB`, updating
`ns:a` to parent list `[ns:missing]` fails `ParentNotFound`, but the
already-committed `DELETE` has stripped `a`'s edge to `ns:default`: after
the failed call `a` has no parent edges at all. -/
theorem update_scope_parent_failure_not_atomic :
    (updateScope chainDB ⟨"ns", "a"⟩ none none (some [⟨"ns", "missing"⟩])).2 =
      .error (.parentNotFound ⟨"ns", "missing"⟩) ∧
    parentIdsOf chainDB.scopeParents 2 = [1] ∧
    parentIdsOf (updateScope chainDB ⟨"ns", "a"⟩ none none
        (some [⟨"ns", "missing"⟩])).1.scopeParents 2 = [] := by
  refine ⟨by decide, by decide, by decide⟩

/-- C6: deleting the namespace named `global` always fails with the
reserved-namespace error, and the state (namespaces, scopes, knowledge) is
returned untouched: the service guard rejects before the repository runs. -/
theorem delete_namespace_global_reserved :
    ∀ db : DB, deleteNamespaceService db "global" =
      (db, .error .cannotDeleteGlobalNamespace) := by
  intro db
  rfl

/-- C3 (counterexample): the claim states the ancestor closure returns each
reachable scope exactly once, at its minimum discovered level.  On
`unequalPathsDB`, scope `a` (id 2) is reachable from `dd` at levels 1 and 2
and the query returns it twice — once per level — not once at level 1. -/
theorem ancestor_closure_repeats_scope_across_levels :
    ancestorClosure unequalPathsDB ⟨"ns", "dd"⟩ =
      .ok [(4, 0), (2, 1), (3, 1), (1, 1), (2, 2), (1, 2), (1, 3)] ∧
    (([((4 : Nat), (0 : Nat)), (2, 1), (3, 1), (1, 1), (2, 2), (1, 2), (1, 3)].map
        Prod.fst).count 2) = 2 := by
  refine ⟨by decide, by decide⟩

/-- C7 (counterexample): the claim states conflict resolution is
idempotent.  Running `Resolve(1, [2])` twice on `pairKnowledgeDB` appends
the suppression tag to entry 2's context twice, so the knowledge store
after two runs differs from the store after one run. -/
theorem resolve_conflicts_not_idempotent :
    (resolveKnowledgeConflicts pairKnowledgeDB 1 [2]).2 = .ok (1, [2]) ∧
    (resolveKnowledgeConflicts (resolveKnowledgeConflicts pairKnowledgeDB 1 [2]).1
        1 [2]).2 = .ok (1, [2]) ∧
    ((resolveKnowledgeConflicts pairKnowledgeDB 1 [2]).1.knowledge.map (·.context)) =
      ["k1", "k2 [SUPPRESSED-BY-1]"] ∧
    ((resolveKnowledgeConflicts (resolveKnowledgeConflicts pairKnowledgeDB 1 [2]).1
        1 [2]).1.knowledge.map (·.context)) =
      ["k1", "k2 [SUPPRESSED-BY-1] [SUPPRESSED-BY-1]"] ∧
    (resolveKnowledgeConflicts (resolveKnowledgeConflicts pairKnowledgeDB 1 [2]).1
        1 [2]).1 ≠ (resolveKnowledgeConflicts pairKnowledgeDB 1 [2]).1 := by
  refine ⟨by decide, by decide, by decide, by decide, by decide⟩

/-- C8 (counterexample): the claim states a resolve call with missing ids
fails with a single error listing every missing id.  On `singleKnowledgeDB`
(only entry 1 exists), `Resolve(1, [7, 8])` in the mcp-server code raises
on the FIRST missing suppressed id: the error names only 7, although 8 is
missing as well. -/
theorem resolve_conflicts_reports_first_missing_only :
    resolveKnowledgeConflicts singleKnowledgeDB 1 [7, 8] =
      (singleKnowledgeDB, .error (.suppressedNotFound 7)) ∧
    knowledgeExists singleKnowledgeDB 7 = false ∧
    knowledgeExists singleKnowledgeDB 8 = false := by
  refine ⟨by decide, by decide, by decide⟩

/-! ## Helper lemmas -/

theorem mem_closureRowsAux_level {edges : List Edge} :
    ∀ (n lvl : Nat) (frontier : List Nat) (p : Nat × Nat),
      p ∈ closureRowsAux edges n lvl frontier → lvl ≤ p.2 := by
  intro n
  induction n with
  | zero =>
    intro lvl frontier p hp
    obtain ⟨s, _, rfl⟩ := List.mem_map.mp hp
    exact Nat.le_refl _
  | succ n ih =>
    intro lvl frontier p hp
    rcases List.mem_append.mp hp with h | h
    · obtain ⟨s, _, rfl⟩ := List.mem_map.mp h
      exact Nat.le_refl _
    · exact Nat.le_of_succ_le (ih (lvl + 1) _ p h)

theorem closureRowsAux_nodup {edges : List Edge} :
    ∀ (n lvl : Nat) (frontier : List Nat), frontier.Nodup →
      (closureRowsAux edges n lvl frontier).Nodup := by
  intro n
  induction n with
  | zero =>
    intro lvl frontier hf
    exact hf.map (fun a b hh => congrArg Prod.fst hh)
  | succ n ih =>
    intro lvl frontier hf
    refine (hf.map (fun a b hh => congrArg Prod.fst hh)).append
      (ih (lvl + 1) _ (List.nodup_dedup _)) ?_
    intro p hp hp2
    obtain ⟨s, _, rfl⟩ := List.mem_map.mp hp
    have := mem_closureRowsAux_level (n := n) (lvl + 1) _ _ hp2
    omega

/-! ## Claim theorems (continued) -/

/-- C3 (amended): the ancestor closure returns each reachable scope once
for every distinct level (parent-path length) at which it is discovered —
the rows are pairwise distinct `(scope, level)` pairs — rather than once
overall at its minimum level; in the diamond case, where both paths to `a`
have equal length, the closure of `dd` contains `a` (id 2) exactly once. -/
theorem ancestor_closure_once_per_level :
    (∀ (edges : List Edge) (fuel start : Nat), (closureRows edges fuel start).Nodup) ∧
    ancestorClosure diamondDB ⟨"ns", "dd"⟩ =
      .ok [(5, 0), (3, 1), (4, 1), (1, 1), (2, 2), (1, 2), (1, 3)] ∧
    (([((5 : Nat), (0 : Nat)), (3, 1), (4, 1), (1, 1), (2, 2), (1, 2), (1, 3)].map
        Prod.fst).count 2) = 1 := by
  refine ⟨?_, by decide, by decide⟩
  intro edges fuel start
  exact closureRowsAux_nodup fuel 0 [start] (List.nodup_cons.mpr ⟨List.not_mem_nil _, List.nodup_nil⟩)

theorem findScope_congr {db db' : DB} (h1 : db'.scopes = db.scopes)
    (h2 : db'.namespaces = db.namespaces) (r : Ref) :
    findScope db' r = findScope db r := by
  simp only [findScope, scopeInNs, h1, h2]

theorem insertEdgeLax_preserve (db : DB) (c p : Nat) :
    (insertEdgeLax db c p).1.namespaces = db.namespaces ∧
    (insertEdgeLax db c p).1.scopes = db.scopes ∧
    ∃ extra, (insertEdgeLax db c p).1.scopeParents = db.scopeParents ++ extra := by
  unfold insertEdgeLax
  split
  · exact ⟨rfl, rfl, [], by simp⟩
  · split
    · exact ⟨rfl, rfl, [], by simp⟩
    · exact ⟨rfl, rfl, [⟨c, p⟩], rfl⟩

theorem insertEdgeLax_ok_mem {db db1 : DB} {c p : Nat}
    (h : insertEdgeLax db c p = (db1, Except.ok ())) :
    Edge.mk c p ∈ db1.scopeParents := by
  unfold insertEdgeLax at h
  split at h
  · simp at h
  · split at h
    · rename_i hc
      injection h with h1 h2
      subst h1
      exact List.elem_iff.mp hc
    · injection h with h1 h2
      subst h1
      exact List.mem_append.mpr (Or.inr (List.mem_singleton.mpr rfl))

theorem insertParentsLax_ok (c : Nat) :
    ∀ (rs : List Ref) (db db1 : DB),
      insertParentsLax db c rs = (db1, Except.ok ()) →
      db1.namespaces = db.namespaces ∧ db1.scopes = db.scopes ∧
      (∃ extra, db1.scopeParents = db.scopeParents ++ extra) ∧
      ∀ r ∈ rs, ∃ prow, findScope db r = some prow ∧
        Edge.mk c prow.id ∈ db1.scopeParents := by
  intro rs
  induction rs with
  | nil =>
    intro db db1 h
    obtain ⟨h1, _⟩ := Prod.mk.inj h
    subst h1
    exact ⟨rfl, rfl, ⟨[], by simp⟩, by simp⟩
  | cons r rest ih =>
    intro db db1 h
    unfold insertParentsLax at h
    split at h
    · simp at h
    · rename_i prow hf
      split at h
      · simp at h
      · rename_i dbe u hE
        cases u
        have pres := insertEdgeLax_preserve db c prow.id
        rw [hE] at pres
        obtain ⟨pn, ps, ⟨extra0, pe⟩⟩ := pres
        have hmemE : Edge.mk c prow.id ∈ dbe.scopeParents := insertEdgeLax_ok_mem hE
        obtain ⟨rn, rsc, ⟨extra1, re⟩, rmem⟩ := ih dbe db1 h
        refine ⟨rn.trans pn, rsc.trans ps,
          ⟨extra0 ++ extra1, by rw [re, pe, List.append_assoc]⟩, ?_⟩
        intro r' hr'
        rcases List.mem_cons.mp hr' with h1 | h1
        · subst h1
          exact ⟨prow, hf, re ▸ List.mem_append.mpr (Or.inl hmemE)⟩
        · obtain ⟨prow', hf', hmem'⟩ := rmem r' h1
          exact ⟨prow', (findScope_congr ps pn r') ▸ hf', hmem'⟩

theorem mem_withDefaultParent (ns : String) (ps : List Ref) :
    Ref.mk ns "default" ∈ withDefaultParent ns ps := by
  unfold withDefaultParent
  split
  · rename_i hc
    exact List.elem_iff.mp hc
  · exact List.mem_append.mpr (Or.inr (List.mem_singleton.mpr rfl))

/-- C2: every successful scope creation gives the new scope a parent edge
to its namespace's `default` scope (added automatically when the explicit
parent list omits it); with an empty explicit parent list the new scope's
parent set is exactly `{namespace:default}`.  The freshness hypothesis says
the new scope's id is not yet a child in the edge set, which the id
sequence guarantees. -/
theorem create_scope_includes_default_parent :
    ∀ (db : DB) (ns scopeName description : String) (parents : List Ref)
      (db2 : DB) (out : ScopeSummary),
      db.scopeParents.all (fun e => !(e.child == db.nextScopeId)) = true →
      createScope db ns scopeName description parents = (db2, Except.ok out) →
      (∃ drow, findScope db2 ⟨ns, "default"⟩ = some drow ∧
          Edge.mk db.nextScopeId drow.id ∈ db2.scopeParents) ∧
      (parents = [] → ∃ drow, findScope db2 ⟨ns, "default"⟩ = some drow ∧
          parentIdsOf db2.scopeParents db.nextScopeId = [drow.id]) := by
  intro db ns scopeName description parents db2 out hfresh h
  unfold createScope at h
  split at h
  · simp at h
  · rename_i nrow hn
    split at h
    · simp at h
    · rename_i ht
      dsimp only at h
      set db1 : DB := { db with
        scopes := db.scopes ++ [⟨db.nextScopeId, nrow.id, scopeName, description, db.clock⟩],
        nextScopeId := db.nextScopeId + 1, clock := db.clock + 1 } with hdb1
      split at h
      · simp at h
      · rename_i dbL u hL
        cases u
        injection h with h1 h2
        subst h1
        obtain ⟨ln, ls, ⟨extra, le⟩, lmem⟩ :=
          insertParentsLax_ok db.nextScopeId (withDefaultParent ns parents) db1 _ hL
        constructor
        · obtain ⟨prow, hfind, hmem⟩ :=
            lmem ⟨ns, "default"⟩ (mem_withDefaultParent ns parents)
          exact ⟨prow, (findScope_congr ls ln ⟨ns, "default"⟩) ▸ hfind, hmem⟩
        · intro hnil
          subst hnil
          have hAll : withDefaultParent ns ([] : List Ref) = [⟨ns, "default"⟩] := by
            unfold withDefaultParent; simp
          rw [hAll] at hL
          -- expand the single-element loop
          unfold insertParentsLax at hL
          split at hL
          · simp at hL
          · rename_i prow hf
            split at hL
            · simp at hL
            · rename_i dbe u hE
              cases u
              unfold insertParentsLax at hL
              injection hL with hdbe h2
              subst hdbe
              -- the insert cannot have hit the duplicate branch
              unfold insertEdgeLax at hE
              split at hE
              · simp at hE
              · split at hE
                · rename_i hdup
                  have hmem1 : Edge.mk db.nextScopeId prow.id ∈ db1.scopeParents :=
                    List.elem_iff.mp hdup
                  have hne := List.all_eq_true.mp hfresh _ hmem1
                  simp at hne
                · injection hE with hdbe2 h3
                  refine ⟨prow, (findScope_congr ls ln ⟨ns, "default"⟩) ▸ hf, ?_⟩
                  rw [← hdbe2]
                  show parentIdsOf
                    (db1.scopeParents ++ [⟨db.nextScopeId, prow.id⟩]) db.nextScopeId = _
                  unfold parentIdsOf
                  rw [List.filter_append]
                  have hnilf : db1.scopeParents.filter
                      (fun e => e.child == db.nextScopeId) = [] := by
                    rw [List.filter_eq_nil_iff]
                    intro e he
                    have := List.all_eq_true.mp hfresh _ he
                    simpa using this
                  rw [hnilf]
                  simp

/-- Witness for C2: the spec's round trip.  Creating `proj:child` with an
empty parent list on `projDB` succeeds, and the theorem applied at these
inputs yields the default parent edge and the exact parent set. -/
theorem create_scope_includes_default_parent_witness :
    (projDB.scopeParents.all (fun e => !(e.child == projDB.nextScopeId)) = true) ∧
    createScope projDB "proj" "child" "d" [] =
      (projChildDB, Except.ok ⟨⟨"proj", "child"⟩, "d", [⟨"proj", "default"⟩]⟩) ∧
    ((∃ drow, findScope projChildDB ⟨"proj", "default"⟩ = some drow ∧
        Edge.mk projDB.nextScopeId drow.id ∈ projChildDB.scopeParents) ∧
     (([] : List Ref) = [] → ∃ drow, findScope projChildDB ⟨"proj", "default"⟩ = some drow ∧
        parentIdsOf projChildDB.scopeParents projDB.nextScopeId = [drow.id])) :=
  ⟨by decide, by decide,
    create_scope_includes_default_parent projDB "proj" "child" "d" []
      projChildDB ⟨⟨"proj", "child"⟩, "d", [⟨"proj", "default"⟩]⟩ (by decide) (by decide)⟩

/-- C5: deleting the scope named `default` of any namespace always fails
with the protection error before anything is looked up or deleted, and
deleting any other existing scope succeeds, reporting exactly the number of
knowledge entries bound to the deleted scope, which are removed with it. -/
theorem delete_scope_default_protected_and_counts :
    (∀ (db : DB) (ns : String),
      deleteScopeTool db ⟨ns, "default"⟩ = (db, .error .defaultScopeProtected)) ∧
    (∀ (db : DB) (r : Ref) (srow : ScopeRow),
      r.name ≠ "default" → findScope db r = some srow →
      (deleteScopeTool db r).2 =
        .ok ⟨r, (db.knowledge.filter (fun k => k.scopeId == srow.id)).length⟩ ∧
      (deleteScopeTool db r).1.knowledge =
        db.knowledge.filter (fun k => !(k.scopeId == srow.id)) ∧
      (deleteScopeTool db r).1.scopes = db.scopes.filter (fun s => !(s.id == srow.id))) := by
  constructor
  · intro db ns
    rfl
  · intro db r srow hname hfind
    have hb : (r.name == "default") = false := by
      simp only [beq_eq_false_iff_ne, ne_eq]
      exact hname
    unfold deleteScopeTool deleteScopeCore
    rw [hb]
    simp only [Bool.false_eq_true, if_false, hfind]
    exact ⟨trivial, trivial, trivial⟩

/-- Witness for C5: on `deleteDemoDB`, deleting `ns:default` fails and
deleting `ns:s` succeeds reporting its two bound knowledge entries. -/
theorem delete_scope_default_protected_and_counts_witness :
    ("s" ≠ "default") ∧
    findScope deleteDemoDB ⟨"ns", "s"⟩ = some ⟨2, 1, "s", "d", 0⟩ ∧
    deleteScopeTool deleteDemoDB ⟨"ns", "default"⟩ =
      (deleteDemoDB, .error .defaultScopeProtected) ∧
    (deleteScopeTool deleteDemoDB ⟨"ns", "s"⟩).2 = .ok ⟨⟨"ns", "s"⟩, 2⟩ :=
  ⟨by decide, by decide,
   delete_scope_default_protected_and_counts.1 deleteDemoDB "ns",
   ((delete_scope_default_protected_and_counts.2 deleteDemoDB ⟨"ns", "s"⟩
      ⟨2, 1, "s", "d", 0⟩ (by decide) (by decide)).1).trans (by decide)⟩

theorem hasMarker_append_tag (s : String) (a : Nat) :
    hasMarker (s ++ suppressionTag a) = true := by
  unfold hasMarker containsSeq
  refine decide_eq_true ?_
  have h0 : suppressionMarker.data <:+: " [SUPPRESSED-BY-".data := by decide
  obtain ⟨x, y, hxy⟩ := h0
  refine ⟨s.data ++ x, y ++ ((toString a).data ++ "]".data), ?_⟩
  have hd : (s ++ suppressionTag a).data =
      s.data ++ (" [SUPPRESSED-BY-".data ++ ((toString a).data ++ "]".data)) := by
    simp [suppressionTag, String.data_append]
  rw [hd, ← hxy]
  simp

theorem filter_map_pairs (f : KnowledgeRow → Bool) :
    ∀ l : List KnowledgeRow,
      ((l.map (fun k => (k.id, f k))).filter (fun p => p.2)).map (fun p => p.1) =
        (l.filter f).map (·.id) := by
  intro l
  induction l with
  | nil => rfl
  | cons a l ih =>
    by_cases hf : f a = true
    · simp [hf, ih]
    · simp only [Bool.not_eq_true] at hf
      simp [hf, ih]

theorem suppressAll_ids (a : Nat) :
    ∀ (ids : List Nat) (db : DB),
      (suppressAll db a ids).knowledge.map (·.id) = db.knowledge.map (·.id) := by
  intro ids
  induction ids with
  | nil => intro db; rfl
  | cons i rest ih =>
    intro db
    show (suppressAll (markSuppressed db a i) a rest).knowledge.map (·.id) = _
    rw [ih]
    unfold markSuppressed
    simp only [List.map_map]
    refine List.map_congr_left ?_
    intro k _
    by_cases hk : (k.id == i) = true
    · simp [Function.comp, hk]
    · simp only [Bool.not_eq_true] at hk
      simp [Function.comp, hk]

theorem knowledgeExists_eq_of_ids {db db' : DB}
    (h : db'.knowledge.map (·.id) = db.knowledge.map (·.id)) (i : Nat) :
    knowledgeExists db' i = knowledgeExists db i := by
  unfold knowledgeExists
  have h1 : ∀ (l : List KnowledgeRow),
      l.any (fun k => k.id == i) = (l.map (·.id)).any (fun x => x == i) := by
    intro l
    induction l with
    | nil => rfl
    | cons a t ih => simp [ih]
  rw [h1, h1, h]

theorem suppressAll_pairs (a : Nat) :
    ∀ (ids : List Nat) (db : DB),
      (suppressAll db a ids).knowledge.map (fun k => (k.id, hasMarker k.context)) =
        db.knowledge.map (fun k => (k.id, hasMarker k.context || ids.contains k.id)) := by
  intro ids
  induction ids with
  | nil =>
    intro db
    show db.knowledge.map _ = _
    refine List.map_congr_left ?_
    intro k _
    simp
  | cons i rest ih =>
    intro db
    show (suppressAll (markSuppressed db a i) a rest).knowledge.map _ = _
    rw [ih]
    unfold markSuppressed
    simp only [List.map_map]
    refine List.map_congr_left ?_
    intro k _
    by_cases hk : (k.id == i) = true
    · simp only [Function.comp, hk, if_pos rfl, List.contains_cons]
      simp [hk, hasMarker_append_tag]
    · simp only [Bool.not_eq_true] at hk
      simp only [Function.comp, hk, List.contains_cons]
      simp [hk]

/-- C7 (amended): after a successful Resolve, re-running it with identical
arguments succeeds again and leaves the set of suppressed entries — those
whose context carries a suppression marker, which is what Search filters on
— unchanged, although the stored contexts differ (each run appends another
suppression tag, as the counterexample shows). -/
theorem resolve_conflicts_suppressed_set_idempotent :
    ∀ (db db1 : DB) (a : Nat) (ids : List Nat),
      resolveKnowledgeConflicts db a ids = (db1, Except.ok (a, ids)) →
      (resolveKnowledgeConflicts db1 a ids).2 = Except.ok (a, ids) ∧
      markedIds (resolveKnowledgeConflicts db1 a ids).1 = markedIds db1 := by
  intro db db1 a ids h
  unfold resolveKnowledgeConflicts at h
  split at h
  · simp at h
  · rename_i hact
    split at h
    · simp at h
    · rename_i hnone
      injection h with h1 h2
      subst h1
      simp at hact
      have hids := suppressAll_ids a ids db
      have hexA : knowledgeExists (suppressAll db a ids) a = true := by
        rw [knowledgeExists_eq_of_ids hids]
        exact hact
      have hfind1 : ids.find?
          (fun i => !(knowledgeExists (suppressAll db a ids) i)) = none := by
        rw [List.find?_eq_none]
        intro i hi
        rw [knowledgeExists_eq_of_ids hids]
        have := List.find?_eq_none.mp hnone i hi
        simpa using this
      have heq : resolveKnowledgeConflicts (suppressAll db a ids) a ids =
          (suppressAll (suppressAll db a ids) a ids, Except.ok (a, ids)) := by
        unfold resolveKnowledgeConflicts
        rw [hexA, hfind1]
        simp
      rw [heq]
      refine ⟨rfl, ?_⟩
      -- the marked-id set is unchanged by the second suppression pass
      have habsorb : (suppressAll db a ids).knowledge.map
          (fun k => (k.id, hasMarker k.context || ids.contains k.id)) =
          (suppressAll db a ids).knowledge.map
            (fun k => (k.id, hasMarker k.context)) := by
        refine List.map_congr_left ?_
        intro k hk
        by_cases hc : ids.contains k.id = true
        · -- a suppressed id already carries the marker after the first run
          have hpair : (k.id, hasMarker k.context) ∈
              (suppressAll db a ids).knowledge.map
                (fun k => (k.id, hasMarker k.context)) :=
            List.mem_map_of_mem _ hk
          rw [suppressAll_pairs a ids db] at hpair
          obtain ⟨k0, _, hk0⟩ := List.mem_map.mp hpair
          have hid : k0.id = k.id := congrArg Prod.fst hk0
          have hmk : (hasMarker k0.context || ids.contains k0.id) =
              hasMarker k.context := congrArg Prod.snd hk0
          rw [hid, hc] at hmk
          simp only [Bool.or_true] at hmk
          rw [← hmk, hc]
          simp
        · simp only [Bool.not_eq_true] at hc
          rw [hc]
          simp
      unfold markedIds
      rw [← filter_map_pairs, ← filter_map_pairs, suppressAll_pairs, habsorb]

/-- Witness for C7's amended claim: the first run on `pairKnowledgeDB`
succeeds, and the theorem applied there shows the second run succeeds with
the same suppressed set. -/
theorem resolve_conflicts_suppressed_set_idempotent_witness :
    resolveKnowledgeConflicts pairKnowledgeDB 1 [2] =
      (pairKnowledgeDB1, Except.ok (1, [2])) ∧
    ((resolveKnowledgeConflicts pairKnowledgeDB1 1 [2]).2 = Except.ok (1, [2]) ∧
     markedIds (resolveKnowledgeConflicts pairKnowledgeDB1 1 [2]).1 =
       markedIds pairKnowledgeDB1) :=
  ⟨by decide,
   resolve_conflicts_suppressed_set_idempotent pairKnowledgeDB pairKnowledgeDB1 1 [2]
     (by decide)⟩

/-- C8 (amended): when one or more of the given ids do not exist, neither
implementation modifies any entry; the `server` implementation fails with a
single error listing exactly the set of missing ids, while the mcp-server
implementation reports only the first missing id (active id first, then the
suppressed ids in order), as the counterexample shows. -/
theorem resolve_conflicts_missing_id_reporting :
    (∀ (db : DB) (a : Nat) (ids : List Nat) (m : Nat),
      (db.knowledge.map (·.id)).Nodup →
      m ∈ a :: ids → knowledgeExists db m = false →
      ∃ miss, resolveKnowledgeConflictServer db a ids =
          (db, Except.error (.knowledgeEntriesNotFound miss)) ∧
        ∀ i, i ∈ miss ↔ (i ∈ a :: ids ∧ knowledgeExists db i = false)) ∧
    (∀ (db db1 : DB) (a : Nat) (ids : List Nat) (e : Err),
      resolveKnowledgeConflicts db a ids = (db1, Except.error e) → db1 = db) := by
  constructor
  · intro db a ids m hnodup hm hmiss
    have hContains : ∀ i, i ∈ a :: ids →
        (((db.knowledge.filter (fun k => (a :: ids).contains k.id)).map (·.id)).contains i
          = true ↔ knowledgeExists db i = true) := by
      intro i hi
      constructor
      · intro hc
        obtain ⟨k, hk, rfl⟩ := List.mem_map.mp (List.elem_iff.mp hc)
        exact List.any_eq_true.mpr ⟨k, (List.mem_filter.mp hk).1, by simp⟩
      · intro he
        obtain ⟨k, hk, hki⟩ := List.any_eq_true.mp he
        have hki' : k.id = i := by simpa using hki
        refine List.elem_iff.mpr (List.mem_map.mpr ⟨k, List.mem_filter.mpr ⟨hk, ?_⟩, hki'⟩)
        rw [hki']
        exact List.elem_iff.mpr hi
    have hexNodup :
        ((db.knowledge.filter (fun k => (a :: ids).contains k.id)).map (·.id)).Nodup := by
      have hsub : List.Sublist
          ((db.knowledge.filter (fun k => (a :: ids).contains k.id)).map (·.id))
          (db.knowledge.map (·.id)) := (List.filter_sublist _).map _
      exact hsub.nodup hnodup
    have hsubset :
        ∀ x ∈ (db.knowledge.filter (fun k => (a :: ids).contains k.id)).map (·.id),
          x ∈ (a :: ids).filter (fun i => !(i == m)) := by
      intro x hx
      obtain ⟨k, hk, rfl⟩ := List.mem_map.mp hx
      obtain ⟨hkmem, hkc⟩ := List.mem_filter.mp hk
      refine List.mem_filter.mpr ⟨List.elem_iff.mp hkc, ?_⟩
      have hne : k.id ≠ m := by
        intro heq
        have : knowledgeExists db m = true :=
          List.any_eq_true.mpr ⟨k, hkmem, by simp [heq]⟩
        rw [this] at hmiss
        exact Bool.true_eq_false.mp hmiss
      simp [hne]
    have hlen :
        ((db.knowledge.filter (fun k => (a :: ids).contains k.id)).map (·.id)).length <
          (a :: ids).length := by
      have h1 := (List.subperm_of_subset hexNodup hsubset).length_le
      have h2 : ((a :: ids).filter (fun i => !(i == m))).length < (a :: ids).length :=
        List.length_filter_lt_length_iff_exists.mpr ⟨m, hm, by simp⟩
      omega
    have hcond :
        (((db.knowledge.filter (fun k => (a :: ids).contains k.id)).map (·.id)).length ==
          (a :: ids).length) = false := by
      simp only [beq_eq_false_iff_ne, ne_eq]
      omega
    refine ⟨((a :: ids).filter (fun i =>
        !(((db.knowledge.filter (fun k => (a :: ids).contains k.id)).map
          (·.id)).contains i))).dedup, ?_, ?_⟩
    · unfold resolveKnowledgeConflictServer
      dsimp only
      rw [hcond]
      simp
    · intro i
      rw [List.mem_dedup, List.mem_filter]
      constructor
      · rintro ⟨hi, hnc⟩
        refine ⟨hi, ?_⟩
        rcases hb : knowledgeExists db i with _ | _
        · rfl
        · rw [← (hContains i hi).mpr hb] at hnc
          simp at hnc
      · rintro ⟨hi, hne⟩
        refine ⟨hi, ?_⟩
        rcases hb : ((db.knowledge.filter (fun k =>
            (a :: ids).contains k.id)).map (·.id)).contains i with _ | _
        · rw [hb]
          rfl
        · rw [(hContains i hi).mp hb] at hne
          exact absurd hne (by simp)
  · intro db db1 a ids e h
    unfold resolveKnowledgeConflicts at h
    split at h
    · injection h with h1 h2
      exact h1.symm
    · split at h
      · injection h with h1 h2
        exact h1.symm
      · injection h with h1 h2
        exact Except.noConfusion h2

/-- Witness for C8's amended claim at `singleKnowledgeDB` (only entry 1
exists) with `Resolve(1, [7, 8])`: the server error lists exactly 7 and 8. -/
theorem resolve_conflicts_missing_id_reporting_witness :
    ((singleKnowledgeDB.knowledge.map (·.id)).Nodup ∧ 7 ∈ (1 :: [7, 8]) ∧
      knowledgeExists singleKnowledgeDB 7 = false) ∧
    (∃ miss, resolveKnowledgeConflictServer singleKnowledgeDB 1 [7, 8] =
        (singleKnowledgeDB, Except.error (.knowledgeEntriesNotFound miss)) ∧
      ∀ i, i ∈ miss ↔ (i ∈ (1 :: [7, 8]) ∧ knowledgeExists singleKnowledgeDB i = false)) :=
  ⟨⟨by decide, by decide, by decide⟩,
   resolve_conflicts_missing_id_reporting.1 singleKnowledgeDB 1 [7, 8] 7
     (by decide) (by decide) (by decide)⟩

theorem mem_insertSorted {α : Type} (le : α → α → Bool) (a x : α) :
    ∀ l : List α, x ∈ insertSorted le a l → x = a ∨ x ∈ l := by
  intro l
  induction l with
  | nil =>
    intro h
    simp only [insertSorted] at h
    exact Or.inl (List.mem_singleton.mp h)
  | cons b bs ih =>
    intro h
    unfold insertSorted at h
    split at h
    · rcases List.mem_cons.mp h with h1 | h1
      · exact Or.inl h1
      · exact Or.inr h1
    · rcases List.mem_cons.mp h with h1 | h1
      · exact Or.inr (h1 ▸ List.mem_cons_self b bs)
      · rcases ih h1 with h2 | h2
        · exact Or.inl h2
        · exact Or.inr (List.mem_cons_of_mem b h2)

theorem mem_sortBy {α : Type} (le : α → α → Bool) (x : α) :
    ∀ l : List α, x ∈ sortBy le l → x ∈ l := by
  intro l
  induction l with
  | nil =>
    intro h
    simp [sortBy] at h
  | cons a as ih =>
    intro h
    rcases mem_insertSorted le a x _ h with h1 | h1
    · exact h1 ▸ List.mem_cons_self a as
    · exact List.mem_cons_of_mem a (ih h1)

theorem mem_searchRows_no_marker (tsMatch : String → String → Bool)
    (tsRank : String → String → Nat) (db : DB) (queries : List String)
    (scopeIds : List Nat) (taskSize : Option String) (row : SearchRow) :
    row ∈ searchRows tsMatch tsRank db queries scopeIds taskSize →
    ∃ k, k ∈ db.knowledge ∧ k.id = row.kid ∧ hasMarker k.context = false := by
  intro h
  unfold searchRows at h
  dsimp only at h
  have h2 := mem_sortBy _ _ _ (List.take_subset _ _ h)
  obtain ⟨k, hk, hfk⟩ := List.mem_filterMap.mp h2
  split at hfk
  · rename_i hcond
    obtain ⟨r, _, hrow⟩ := Option.map_eq_some'.mp hfk
    have hmark : (!(hasMarker k.context)) = true := by
      have hc1 := (Bool.and_eq_true _ _).mp hcond
      have hc2 := (Bool.and_eq_true _ _).mp hc1.1
      exact hc2.2
    refine ⟨k, hk, ?_, ?_⟩
    · rw [← hrow]
    · simpa using hmark
  · exact absurd hfk (by simp)

theorem mem_setEntry {k0 : Nat} {v0 : String} {k : Nat} {v : String} :
    ∀ {es : List (Nat × String)},
      (k, v) ∈ setEntry es k0 v0 → (∃ v1, (k, v1) ∈ es) ∨ k = k0 := by
  intro es
  induction es with
  | nil =>
    intro h
    simp only [setEntry] at h
    exact Or.inr (congrArg Prod.fst (List.mem_singleton.mp h))
  | cons p rest ih =>
    intro h
    rw [show setEntry (p :: rest) k0 v0 =
        (if p.1 == k0 then (p.1, v0) :: rest else p :: setEntry rest k0 v0) from by
      cases p; rfl] at h
    split at h
    · rename_i hp
      rcases List.mem_cons.mp h with h1 | h1
      · refine Or.inr ?_
        have := congrArg Prod.fst h1
        simp only at this
        rw [this]
        exact eq_of_beq hp
      · exact Or.inl ⟨v, List.mem_cons_of_mem p h1⟩
    · rcases List.mem_cons.mp h with h1 | h1
      · exact Or.inl ⟨v, h1 ▸ List.mem_cons_self p rest⟩
      · rcases ih h1 with h2 | h2
        · obtain ⟨v1, hv1⟩ := h2
          exact Or.inl ⟨v1, List.mem_cons_of_mem p hv1⟩
        · exact Or.inr h2

theorem mem_setGroup {lab0 : String} {k0 : Nat} {v0 : String} {lab : String}
    {k : Nat} {v : String} :
    ∀ {acc : List (String × List (Nat × String))} {es : List (Nat × String)},
      (lab, es) ∈ setGroup acc lab0 k0 v0 → (k, v) ∈ es →
      (∃ es0 v1, (lab, es0) ∈ acc ∧ (k, v1) ∈ es0) ∨ k = k0 := by
  intro acc
  induction acc with
  | nil =>
    intro es h hm
    simp only [setGroup] at h
    have hes : es = [(k0, v0)] := congrArg Prod.snd (List.mem_singleton.mp h)
    rw [hes] at hm
    exact Or.inr (congrArg Prod.fst (List.mem_singleton.mp hm))
  | cons g rest ih =>
    intro es h hm
    rw [show setGroup (g :: rest) lab0 k0 v0 =
        (if g.1 == lab0 then (g.1, setEntry g.2 k0 v0) :: rest
         else g :: setGroup rest lab0 k0 v0) from by
      cases g; rfl] at h
    split at h
    · rcases List.mem_cons.mp h with h1 | h1
      · have hes : es = setEntry g.2 k0 v0 := congrArg Prod.snd h1
        have hlab : lab = g.1 := congrArg Prod.fst h1
        rw [hes] at hm
        rcases mem_setEntry hm with h2 | h2
        · obtain ⟨v1, hv1⟩ := h2
          refine Or.inl ⟨g.2, v1, ?_, hv1⟩
          rw [hlab]
          exact (show (g.1, g.2) ∈ g :: rest from by
            rw [Prod.mk.eta]; exact List.mem_cons_self g rest)
        · exact Or.inr h2
      · exact Or.inl ⟨es, v, List.mem_cons_of_mem g h1, hm⟩
    · rcases List.mem_cons.mp h with h1 | h1
      · exact Or.inl ⟨es, v, h1 ▸ List.mem_cons_self g rest, hm⟩
      · rcases ih h1 hm with h2 | h2
        · obtain ⟨es0, v1, hacc, hv1⟩ := h2
          exact Or.inl ⟨es0, v1, List.mem_cons_of_mem g hacc, hv1⟩
        · exact Or.inr h2

theorem groupRows_kid_mem :
    ∀ (rows : List SearchRow) (acc : List (String × List (Nat × String)))
      (lab : String) (es : List (Nat × String)) (k : Nat) (v : String),
      (lab, es) ∈ rows.foldl (fun acc r => setGroup acc r.scopeLabel r.kid r.content) acc →
      (k, v) ∈ es →
      (∃ es0 v1, (lab, es0) ∈ acc ∧ (k, v1) ∈ es0) ∨ ∃ r ∈ rows, r.kid = k := by
  intro rows
  induction rows with
  | nil =>
    intro acc lab es k v h hm
    exact Or.inl ⟨es, v, h, hm⟩
  | cons r rest ih =>
    intro acc lab es k v h hm
    rcases ih _ lab es k v h hm with h1 | h1
    · obtain ⟨es0, v1, hacc, hmem0⟩ := h1
      rcases mem_setGroup hacc hmem0 with h2 | h2
      · exact Or.inl h2
      · exact Or.inr ⟨r, List.mem_cons_self r rest, h2.symm⟩
    · obtain ⟨r', hr', hk⟩ := h1
      exact Or.inr ⟨r', List.mem_cons_of_mem r hr', hk⟩

/-- C4: no knowledge entry whose context carries the suppression marker
appears anywhere in the returned search results — for every query list,
scope set, task-size filter and every black-box match/rank function, each
returned id belongs to an entry without a suppression marker. -/
theorem search_excludes_suppressed_entries :
    ∀ (tsMatch : String → String → Bool) (tsRank : String → String → Nat)
      (db : DB) (queries : List String) (scopeIds : List Nat)
      (taskSize : Option String) (lab : String) (es : List (Nat × String))
      (k : Nat) (v : String),
      (lab, es) ∈ groupRows (searchRows tsMatch tsRank db queries scopeIds taskSize) →
      (k, v) ∈ es →
      ∃ krow, krow ∈ db.knowledge ∧ krow.id = k ∧ hasMarker krow.context = false := by
  intro tsMatch tsRank db queries scopeIds taskSize lab es k v hg hm
  unfold groupRows at hg
  rcases groupRows_kid_mem _ [] lab es k v hg hm with h1 | h1
  · obtain ⟨es0, v1, hacc, _⟩ := h1
    exact absurd hacc (List.not_mem_nil _)
  · obtain ⟨row, hrow, hkid⟩ := h1
    obtain ⟨krow, hk1, hk2, hk3⟩ :=
      mem_searchRows_no_marker tsMatch tsRank db queries scopeIds taskSize row hrow
    exact ⟨krow, hk1, hkid ▸ hk2, hk3⟩

/-- Witness for C4: a search over `searchDemoDB` that returns its one
entry, to which the theorem applies. -/
theorem search_excludes_suppressed_entries_witness :
    (("ns:default", [((1 : Nat), "content-one")]) ∈
      groupRows (searchRows (fun _ _ => true) (fun _ _ => 0) searchDemoDB ["q"] [1] none) ∧
     ((1 : Nat), "content-one") ∈ [((1 : Nat), "content-one")]) ∧
    ∃ krow, krow ∈ searchDemoDB.knowledge ∧ krow.id = 1 ∧
      hasMarker krow.context = false :=
  ⟨⟨by decide, by decide⟩,
   search_excludes_suppressed_entries (fun _ _ => true) (fun _ _ => 0) searchDemoDB
     ["q"] [1] none "ns:default" [(1, "content-one")] 1 "content-one"
     (by decide) (by decide)⟩

theorem insertEdgeStrict_preserve (db : DB) (c p : Nat) :
    (insertEdgeStrict db c p).1.scopes = db.scopes ∧
    (insertEdgeStrict db c p).1.namespaces = db.namespaces := by
  unfold insertEdgeStrict
  split
  · exact ⟨rfl, rfl⟩
  · split
    · exact ⟨rfl, rfl⟩
    · exact ⟨rfl, rfl⟩

theorem insertParentsStrict_preserve (c : Nat) :
    ∀ (rs : List Ref) (db : DB),
      (insertParentsStrict db c rs).1.scopes = db.scopes ∧
      (insertParentsStrict db c rs).1.namespaces = db.namespaces := by
  intro rs
  induction rs with
  | nil => intro db; exact ⟨rfl, rfl⟩
  | cons r rest ih =>
    intro db
    unfold insertParentsStrict
    split
    · exact ⟨rfl, rfl⟩
    · rename_i prow hf
      cases hE : insertEdgeStrict db c prow.id with
      | mk dbe res =>
        have hp := insertEdgeStrict_preserve db c prow.id
        rw [hE] at hp
        cases res with
        | error e => simpa using hp
        | ok u =>
          simp only
          obtain ⟨h1, h2⟩ := ih dbe
          exact ⟨h1.trans hp.1, h2.trans hp.2⟩

theorem updateScope_desc_pairs (db : DB) (r : Ref) (nsc : Option Ref)
    (d : Option String) (ps : Option (List Ref)) (hd : optTruthy d = false) :
    (updateScope db r nsc d ps).1.scopes.map (fun s => (s.id, s.description)) =
      db.scopes.map (fun s => (s.id, s.description)) := by
  unfold updateScope
  split
  · rfl
  · rename_i srow hfind
    have hrenmap : ∀ (nm : String) (ck : Nat),
        (db.scopes.map (fun s =>
            if s.id == srow.id then { s with name := nm, updatedAt := ck } else s)).map
          (fun s => (s.id, s.description)) =
          db.scopes.map (fun s => (s.id, s.description)) := by
      intro nm ck
      simp only [List.map_map]
      refine List.map_congr_left ?_
      intro s _
      by_cases hs : (s.id == srow.id) = true
      · simp [Function.comp, hs]
      · simp only [Bool.not_eq_true] at hs
        simp [Function.comp, hs]
    cases nsc with
    | none =>
      dsimp only
      rw [hd]
      simp only [Bool.false_eq_true, if_false]
      cases ps with
      | none => rfl
      | some ps' =>
        dsimp only
        split
        · rename_i db4 e hI
          have h1 := congrArg (fun x : DB × Except Err Unit => x.1.scopes) hI
          simp only at h1
          rw [(insertParentsStrict_preserve srow.id _ _).1] at h1
          dsimp only
          rw [← h1]
        · rename_i db4 u hI
          have h1 := congrArg (fun x : DB × Except Err Unit => x.1.scopes) hI
          simp only at h1
          rw [(insertParentsStrict_preserve srow.id _ _).1] at h1
          dsimp only
          rw [← h1]
    | some nr =>
      by_cases hns : (nr.ns == r.ns) = true
      · dsimp only
        rw [if_pos hns]
        dsimp only
        rw [hd]
        simp only [Bool.false_eq_true, if_false]
        cases ps with
        | none => exact hrenmap nr.name db.clock
        | some ps' =>
          dsimp only
          split
          · rename_i db4 e hI
            have h1 := congrArg (fun x : DB × Except Err Unit => x.1.scopes) hI
            simp only at h1
            rw [(insertParentsStrict_preserve srow.id _ _).1] at h1
            dsimp only
            rw [← h1]
            exact hrenmap nr.name db.clock
          · rename_i db4 u hI
            have h1 := congrArg (fun x : DB × Except Err Unit => x.1.scopes) hI
            simp only at h1
            rw [(insertParentsStrict_preserve srow.id _ _).1] at h1
            dsimp only
            rw [← h1]
            exact hrenmap nr.name db.clock
      · dsimp only
        rw [if_neg hns]

/-- C10: in the update operations, a field supplied as the empty string is
treated exactly like an omitted field: updating knowledge with empty
`content` (resp. `context`) equals the call that omits the field and leaves
every stored content (resp. context) unchanged, and updating a scope with
an empty `description` equals the omitting call and leaves every stored
description unchanged. -/
theorem empty_string_fields_left_unchanged :
    ∀ (db : DB) (eid : Nat) (c1 c2 : Option String) (sc : Option Ref)
      (r : Ref) (nsc : Option Ref) (ps : Option (List Ref)),
      updateKnowledgeEntry db eid (some "") c2 sc =
        updateKnowledgeEntry db eid none c2 sc ∧
      (updateKnowledgeEntry db eid (some "") c2 sc).1.knowledge.map
          (fun k => (k.id, k.content)) =
        db.knowledge.map (fun k => (k.id, k.content)) ∧
      updateKnowledgeEntry db eid c1 (some "") sc =
        updateKnowledgeEntry db eid c1 none sc ∧
      (updateKnowledgeEntry db eid c1 (some "") sc).1.knowledge.map
          (fun k => (k.id, k.context)) =
        db.knowledge.map (fun k => (k.id, k.context)) ∧
      updateScope db r nsc (some "") ps = updateScope db r nsc none ps ∧
      (updateScope db r nsc (some "") ps).1.scopes.map
          (fun s => (s.id, s.description)) =
        db.scopes.map (fun s => (s.id, s.description)) := by
  have hker : ∀ (db : DB) (eid : Nat) (c1 c2 : Option String) (sc : Option Ref),
      optTruthy c1 = false →
      (updateKnowledgeEntry db eid c1 c2 sc).1.knowledge.map
          (fun k => (k.id, k.content)) =
        db.knowledge.map (fun k => (k.id, k.content)) := by
    intro db eid c1 c2 sc hc
    unfold updateKnowledgeEntry
    split
    · rfl
    · split
      · rfl
      · cases sc with
        | none =>
          dsimp only
          simp only [List.map_map]
          refine List.map_congr_left ?_
          intro k _
          by_cases hk : (k.id == eid) = true
          · simp [Function.comp, hk, hc]
          · simp only [Bool.not_eq_true] at hk
            simp [Function.comp, hk]
        | some rr =>
          cases hf : findScope db rr with
          | none =>
            dsimp only
            rw [hf]
          | some srow =>
            dsimp only
            rw [hf]
            simp only [List.map_map]
            refine List.map_congr_left ?_
            intro k _
            by_cases hk : (k.id == eid) = true
            · simp [Function.comp, hk, hc]
            · simp only [Bool.not_eq_true] at hk
              simp [Function.comp, hk]
  have hkerCtx : ∀ (db : DB) (eid : Nat) (c1 c2 : Option String) (sc : Option Ref),
      optTruthy c2 = false →
      (updateKnowledgeEntry db eid c1 c2 sc).1.knowledge.map
          (fun k => (k.id, k.context)) =
        db.knowledge.map (fun k => (k.id, k.context)) := by
    intro db eid c1 c2 sc hc
    unfold updateKnowledgeEntry
    split
    · rfl
    · split
      · rfl
      · cases sc with
        | none =>
          dsimp only
          simp only [List.map_map]
          refine List.map_congr_left ?_
          intro k _
          by_cases hk : (k.id == eid) = true
          · simp [Function.comp, hk, hc]
          · simp only [Bool.not_eq_true] at hk
            simp [Function.comp, hk]
        | some rr =>
          cases hf : findScope db rr with
          | none =>
            dsimp only
            rw [hf]
          | some srow =>
            dsimp only
            rw [hf]
            simp only [List.map_map]
            refine List.map_congr_left ?_
            intro k _
            by_cases hk : (k.id == eid) = true
            · simp [Function.comp, hk, hc]
            · simp only [Bool.not_eq_true] at hk
              simp [Function.comp, hk]
  intro db eid c1 c2 sc r nsc ps
  refine ⟨rfl, hker db eid (some "") c2 sc rfl, rfl,
    hkerCtx db eid c1 (some "") sc rfl, rfl, updateScope_desc_pairs db r nsc (some "") ps rfl⟩

end Kaizen
